import Mathlib

/-!
Verification of the POSIX parameter-expansion library (mgood/go-posix).

The embedding below is a shallow translation of the Go source:

* the scanner (`lexText`, `lexStartExpansion`, `lexEndBracket`,
  `lexSimpleName`, `lexBracketName`, `lexParamOp`, `lexParamLength`,
  `lexSingleQuoteString` and the `run` loop of `posix.go`) is modelled as
  the single fueled step function `lexRunF` over an explicit state tag,
  the pending token text (`input[start:pos]`), the remaining input, the
  bracket `depth` counter and the `doubleQuotes` flag;
* the channel-based evaluator (`evalStream`, `skipStream`,
  `bracketedStream`, and the `Eval` methods of the items) is modelled
  twice over the materialised token list: `evalStreamH` is the faithful
  model — `bracketedStream` records whether the sub-channel is ever
  closed (the goroutine returns without `close(c)` after the fallback
  `itemUnexpectedEOF` send), and a drain ranging over a channel that is
  never closed yields the `EvalOut.hangs` outcome, reproducing the
  deadlock of, for example, `${set-` with `set` bound — while
  `evalStreamF` with `subStream` collapses that deadlock into a
  finishing drain and is used for claims whose runs all find their
  `itemEndBracket` terminators, where the two models agree;
* the `Getter`/`Setter` capabilities are modelled by `GetterImpl`, with
  the state of the mapping threaded explicitly through evaluation
  (`posix.Map`, `posix.RWMap` and `posix.Func` become `MapImpl`,
  `RWMapImpl` and `FuncImpl`).

Go strings are modelled as Lean strings (lists of unicode scalars);
the inputs of interest are ASCII, where byte-wise and rune-wise
scanning coincide.  The fueled functions are supplied fuel computed
from their input and are proved never to exhaust it
(`lexRunF_complete`, `evalStreamF_complete`, `evalStreamH_complete`):
`none` stands for insufficient fuel only, while a genuine deadlock of
the code is the distinct value `EvalOut.hangs`.
-/

namespace GoPosix

/-- isAlpha reports whether the byte is an ASCII letter or underscore. -/
def isAlpha (c : Char) : Bool :=
  c = '_' || ('a' ≤ c && c ≤ 'z') || ('A' ≤ c && c ≤ 'Z')

/-- isNum reports whether the byte is an ASCII number. -/
def isNum (c : Char) : Bool :=
  '0' ≤ c && c ≤ '9'

/-- isAlphaNum reports whether the byte is an ASCII letter, number, or underscore. -/
def isAlphaNum (c : Char) : Bool :=
  isAlpha c || isNum c

/-- The tokens of the scanner: `itemText`, `itemEndBracket`,
`itemUnexpectedEOF`, `itemReadParam`, `itemParamLen`, `itemParamOp` of
the source.  The `op` field of `paramOp` is the rune read by
`lexParamOp`; `none` stands for the `eof` sentinel (rune -1). -/
inductive Item where
  | text (s : String)
  | endBracket
  | unexpectedEOF (c : Char)
  | readParam (name : String)
  | paramLen (name : String)
  | paramOp (parameter : String) (op : Option Char) (nullIsEmpty : Bool)
deriving Repr, DecidableEq

/-- The state functions of the scanner.  `bracketName` is the entry of
`lexBracketName` (the one-shot `#` check); `bracketInner` is its
accumulation loop. -/
inductive LState where
  | text
  | startExpansion
  | endBracket
  | simpleName
  | bracketName
  | bracketInner
  | paramOp
  | paramLength
  | singleQuote
deriving Repr, DecidableEq

/-- Rank used in the fuel bound: state transitions that consume no input
strictly decrease the rank. -/
def stateRank : LState → Nat
  | .bracketName => 3
  | .bracketInner => 2
  | .paramOp => 1
  | .simpleName => 1
  | .endBracket => 1
  | _ => 0

/-- Membership in the double-quote escape set: `strings.IndexRune("$`\"\\", c) >= 0`. -/
def dqEscape (c : Char) : Bool :=
  c = '$' || c = '`' || c = '"' || c = '\\'

/-- `emitLastToken`: emit the pending text as an `itemText` when it is
nonempty (`l.pos > l.start`). -/
def flushT (p : List Char) : List Item :=
  if p = [] then [] else [Item.text (String.mk p)]

/-- The scanner: one fueled step function covering the `run` loop and
every state function of the source.  Arguments: fuel, state, pending
token text, remaining input, bracket depth, double-quote flag.  Returns
the list of items emitted until the scanner stops (`none` only when the
fuel runs out; `lexRunF_complete` shows the fuel used by `lexItems`
always suffices). -/
def lexRunF : Nat → LState → List Char → List Char → Int → Bool → Option (List Item)
  | 0, _, _, _, _, _ => none
  | f + 1, st, p, rest, d, q =>
    match st, rest with
    | .text, [] => some (flushT p)
    | .text, c :: r =>
      if c = '}' then
        if d > 0 then
          (lexRunF f .endBracket [] r d q).map (fun out => flushT p ++ Item.endBracket :: out)
        else
          lexRunF f .text (p ++ [c]) r d q
      else if c = '$' then
        (lexRunF f .startExpansion [] r d q).map (fun out => flushT p ++ out)
      else if c = '\'' then
        if d > 0 then
          (lexRunF f .singleQuote [] r d q).map (fun out => flushT p ++ out)
        else
          lexRunF f .text (p ++ [c]) r d q
      else if c = '\\' then
        match r with
        | [] => some (flushT p ++ (if d = 0 ∨ q then [Item.text "\\"] else []))
        | c2 :: r2 =>
          (lexRunF f .text [c2] r2 d q).map (fun out =>
            flushT p
              ++ (if (d = 0 ∧ c2 ≠ '$') ∨ (q ∧ dqEscape c2 = false) then [Item.text "\\"] else [])
              ++ out)
      else if c = '"' then
        if d > 0 then
          (lexRunF f .text [] r d (!q)).map (fun out => flushT p ++ out)
        else
          lexRunF f .text (p ++ [c]) r d q
      else
        lexRunF f .text (p ++ [c]) r d q
    | .startExpansion, [] => some [Item.text "$"]
    | .startExpansion, c :: r =>
      if c = '{' then
        lexRunF f .bracketName [] r (d + 1) q
      else if isAlpha c then
        lexRunF f .simpleName [c] r d q
      else
        some []
    | .endBracket, rest2 => lexRunF f .text [] rest2 (d - 1) q
    | .simpleName, [] =>
      (lexRunF f .text [] [] d q).map (fun out => Item.readParam (String.mk p) :: out)
    | .simpleName, c :: r =>
      if isAlphaNum c then
        lexRunF f .simpleName (p ++ [c]) r d q
      else
        (lexRunF f .text [] (c :: r) d q).map (fun out => Item.readParam (String.mk p) :: out)
    | .bracketName, [] => some [Item.unexpectedEOF '}']
    | .bracketName, c :: r =>
      if c = '#' then
        lexRunF f .paramLength [] r d q
      else
        lexRunF f .bracketInner p (c :: r) d q
    | .bracketInner, [] => some [Item.unexpectedEOF '}']
    | .bracketInner, c :: r =>
      if c = '}' ∨ c = ':' ∨ c = '-' ∨ c = '?' ∨ c = '+' ∨ c = '=' then
        lexRunF f .paramOp p (c :: r) d q
      else
        lexRunF f .bracketInner (p ++ [c]) r d q
    | .paramOp, [] =>
      (lexRunF f .text [] [] d q).map (fun out => Item.paramOp (String.mk p) none false :: out)
    | .paramOp, c :: r =>
      if c = '}' then
        (lexRunF f .endBracket [] r d q).map (fun out => Item.readParam (String.mk p) :: out)
      else if c = ':' then
        match r with
        | [] =>
          (lexRunF f .text [] [] d q).map (fun out => Item.paramOp (String.mk p) none true :: out)
        | c2 :: r2 =>
          (lexRunF f .text [] r2 d q).map
            (fun out => Item.paramOp (String.mk p) (some c2) true :: out)
      else
        (lexRunF f .text [] r d q).map (fun out => Item.paramOp (String.mk p) (some c) false :: out)
    | .paramLength, [] => some [Item.unexpectedEOF '}']
    | .paramLength, c :: r =>
      if c = '}' then
        (lexRunF f .endBracket [] r d q).map (fun out => Item.paramLen (String.mk p) :: out)
      else
        lexRunF f .paramLength (p ++ [c]) r d q
    | .singleQuote, [] => some [Item.unexpectedEOF '\'']
    | .singleQuote, c :: r =>
      if c = '\'' then
        (lexRunF f .text [] r d q).map (fun out => flushT p ++ out)
      else
        lexRunF f .singleQuote (p ++ [c]) r d q

/-- Fuel sufficient for scanning `s` (see `lexRunF_complete`). -/
def lexFuel (s : String) : Nat := 4 * s.data.length + 1

/-- The full token list the scanner produces for input `s`
(the `lex` entry point of the source, started in state `lexText`). -/
def lexItems (s : String) : List Item :=
  (lexRunF (lexFuel s) .text [] s.data 0 false).getD []

/-- The error text of `itemUnexpectedEOF.Eval`. -/
def ueMsg (c : Char) : String :=
  "unexpected EOF while looking for matching `" ++ String.mk [c] ++ "'"

/-- A `Getter` capability (with optional `Setter`), with the mapping
state `γ` threaded explicitly.  `set = none` models a mapping that does
not implement the `Setter` interface; `typeName` models the `%T` of the
Go error message. -/
structure GetterImpl (γ : Type) where
  typeName : String
  get : γ → String → String × Bool
  set : Option (γ → String → String → Except String γ)

/-- `posix.Map.Get` / `posix.RWMap.Get`: lookup in a key/value list. -/
def getAssoc : List (String × String) → String → String × Bool
  | [], _ => ("", false)
  | (k, v) :: r, key => if k = key then (v, true) else getAssoc r key

/-- `posix.RWMap.Set`: `m[k] = v`. -/
def setAssoc : List (String × String) → String → String → List (String × String)
  | [], key, v => [(key, v)]
  | (k, v0) :: r, key, v => if k = key then (key, v) :: r else (k, v0) :: setAssoc r key v

/-- `posix.Map`: read-only mapping (no `Setter`). -/
def MapImpl : GetterImpl (List (String × String)) :=
  ⟨"posix.Map", getAssoc, none⟩

/-- `posix.RWMap`: mutable mapping. -/
def RWMapImpl : GetterImpl (List (String × String)) :=
  ⟨"posix.RWMap", getAssoc, some (fun m k v => .ok (setAssoc m k v))⟩

/-- `posix.Func`: a lookup function; `Get` always reports `true`. -/
def FuncImpl (f : String → String) : GetterImpl Unit :=
  ⟨"posix.Func", fun _ k => (f k, true), none⟩

/-- The branch decision of `itemParamOp.Eval`:
`paramVal, paramSet := mapping.Get(...); if p.nullIsEmpty { paramSet = paramVal != "" }`. -/
def computeIsSet (nullIsEmpty : Bool) (value : String) (exists0 : Bool) : Bool :=
  if nullIsEmpty then value != "" else exists0

/-- The branch decision as the specification words it:
`isSet = exists AND (NOT nullIsEmpty OR value != "")`.
Modelled from the spec for comparison with `computeIsSet`. -/
def specIsSet (nullIsEmpty : Bool) (value : String) (exists0 : Bool) : Bool :=
  exists0 && (!nullIsEmpty || value != "")

/-- `bracketedStream`, materialised as deliveries only: the items the
sub-channel delivers (first component) and the remainder of the parent
stream once the producer goroutine has finished (second component).
The producer forwards items until the first `itemEndBracket`, which it
consumes; if the parent stream closes first it appends
`itemUnexpectedEOF('}')`.

This abstraction treats every drain over the sub-channel as finishing.
In the Go code the producer returns WITHOUT `close(c)` after the
fallback `itemUnexpectedEOF` send, so `skipStream` over such a
sub-channel blocks forever; `bracketedStream`/`evalStreamH` below model
that faithfully.  `subStream` and `evalStreamF` coincide with the
faithful model on every run in which each drained operand finds its
`itemEndBracket` — which holds for every input evaluated with them by
the claims below. -/
def subStream : List Item → List Item × List Item
  | [] => ([Item.unexpectedEOF '}'], [])
  | Item.endBracket :: r => ([], r)
  | i :: r => (i :: (subStream r).1, (subStream r).2)

/-- Number of `itemParamOp` tokens; used for the evaluator's fuel. -/
def poCount : List Item → Nat
  | [] => 0
  | Item.paramOp _ _ _ :: r => poCount r + 1
  | _ :: r => poCount r

/-- Prepend an evaluated item's text to the result of the rest of the
stream (the `buf.WriteString` step of `evalStream`; on error the buffer
is discarded). -/
def withPrefix {γ : Type} (s : String) :
    Option (Except String String × γ) → Option (Except String String × γ)
  | none => none
  | some (.error e, env) => some (.error e, env)
  | some (.ok t, env) => some (.ok (s ++ t), env)

/-- Display of the `op` rune in the `unexpected op` error:
`fmt.Errorf("unexpected op: %s", p.op)` applies the `%s` verb to a
rune (an `int32`), which prints `%!s(int32=<decimal code>)`; `none`
stands for the `eof` sentinel rune -1.  (No claim reaches this
branch.) -/
def opString : Option Char → String
  | some c => "%!s(int32=" ++ Nat.repr c.toNat ++ ")"
  | none => "%!s(int32=-1)"

/-- The evaluator: `evalStream` together with the `Eval` methods of the
items and the `skipStream`/`bracketedStream` plumbing, over the
materialised token list.  The mapping state `env : γ` is threaded
through (Go mutates the mapping in place via `Setter.Set`).  Returns
`none` only on fuel exhaustion (`evalStreamF_complete`).

Like `subStream`, this model treats every drain as finishing: the
set-parameter drain branch continues with the parameter's value even
when the operand has no `itemEndBracket`, where the Go code deadlocks
in `skipStream(bracketedStream(stream))` (the sub-channel is never
closed after the fallback unexpected-EOF send).  `evalStreamH` below is
the faithful model distinguishing that hang; the two agree on every run
whose drains find their terminator, which covers every input this
function is applied to by the claims below. -/
def evalStreamF {γ : Type} (impl : GetterImpl γ) :
    Nat → γ → List Item → Option (Except String String × γ)
  | 0, _, _ => none
  | _ + 1, env, [] => some (.ok "", env)
  | f + 1, env, i :: rest =>
    match i with
    | .text s => withPrefix s (evalStreamF impl f env rest)
    | .endBracket => withPrefix "" (evalStreamF impl f env rest)
    | .unexpectedEOF c => some (.error (ueMsg c), env)
    | .readParam name => withPrefix (impl.get env name).1 (evalStreamF impl f env rest)
    | .paramLen name =>
      withPrefix (Nat.repr (impl.get env name).1.utf8ByteSize) (evalStreamF impl f env rest)
    | .paramOp name op nullIsEmpty =>
      let pVal := (impl.get env name).1
      let pSet := computeIsSet nullIsEmpty pVal (impl.get env name).2
      if op = some '+' then
        if pSet then
          match evalStreamF impl f env (subStream rest).1 with
          | none => none
          | some (.error e, env1) => some (.error e, env1)
          | some (.ok v, env1) => withPrefix v (evalStreamF impl f env1 (subStream rest).2)
        else
          some (.ok "", env)
      else if pSet then
        withPrefix pVal (evalStreamF impl f env (subStream rest).2)
      else
        match evalStreamF impl f env (subStream rest).1 with
        | none => none
        | some (.error e, env1) => some (.error e, env1)
        | some (.ok v, env1) =>
          if op = some '-' then
            withPrefix v (evalStreamF impl f env1 (subStream rest).2)
          else if op = some '=' then
            match impl.set with
            | some setf =>
              match setf env1 name v with
              | .error e => some (.error e, env1)
              | .ok env2 => withPrefix v (evalStreamF impl f env2 (subStream rest).2)
            | none =>
              some (.error ("mapping type " ++ impl.typeName ++ " does not support assignment"),
                env1)
          else if op = some '?' then
            some (.error (if v = "" then name ++ ": parameter null or not set" else v), env1)
          else
            some (.error ("unexpected op: " ++ opString op), env1)

/-- Fuel sufficient for evaluating the token list `L`
(see `evalStreamF_complete`). -/
def evalMeasure (L : List Item) : Nat := L.length + poCount L + 1

/-- Evaluate a complete token list (the top-level `evalStream` call of
`Expand`). -/
def evalItems {γ : Type} (impl : GetterImpl γ) (env : γ) (L : List Item) :
    Except String String × γ :=
  (evalStreamF impl (evalMeasure L) env L).getD (.ok "", env)

/-- `Expand(s, mapping)`: scan the template and evaluate the stream.
The result pairs the Go `(value, error)` return (merged into `Except`)
with the final state of the mapping. -/
def Expand {γ : Type} (impl : GetterImpl γ) (env : γ) (s : String) :
    Except String String × γ :=
  evalItems impl env (lexItems s)

/-- Outcome of a call in the faithful channel model: the call returns a
`(value, error)` result with the final mapping state, or blocks
forever. -/
inductive EvalOut (γ : Type) where
  | done (r : Except String String) (env : γ)
  | hangs

/-- `bracketedStream`, materialised faithfully over a channel that will
deliver a list of items and then — when `closing` is true — be closed
(else its producer blocks and it is never closed).  Components: the
items the sub-channel delivers; whether the sub-channel is closed after
them (`close(c)` happens only on seeing an `itemEndBracket`; after the
fallback `itemUnexpectedEOF('}')` send the goroutine returns without
closing, and over a blocking parent it never reaches the fallback); and
the remainder of the parent's deliveries. -/
def bracketedStream (closing : Bool) : List Item → List Item × Bool × List Item
  | [] => (if closing then [Item.unexpectedEOF '}'] else [], false, [])
  | Item.endBracket :: r => ([], true, r)
  | i :: r =>
    (i :: (bracketedStream closing r).1, (bracketedStream closing r).2.1,
      (bracketedStream closing r).2.2)

/-- `withPrefix` for the faithful model: a hang propagates. -/
def withPrefixH {γ : Type} (s : String) : Option (EvalOut γ) → Option (EvalOut γ)
  | none => none
  | some .hangs => some .hangs
  | some (.done (.error e) env) => some (.done (.error e) env)
  | some (.done (.ok t) env) => some (.done (.ok (s ++ t)) env)

/-- The evaluator in the faithful channel model: `evalStream`, the
items' `Eval` methods, `skipStream` and `bracketedStream`, with
deadlock distinguished.  `closing` records whether the channel being
consumed is closed after its deliveries.  A drain that ranges over a
channel that is never closed blocks forever and yields `.hangs`:
`skipStream(bracketedStream(stream))` when the remaining deliveries
hold no `itemEndBracket` (the sub-channel stays open after the fallback
unexpected-EOF send), and `skipStream(stream)` or an exhausted
`evalStream` over a non-closing channel.  `none` only on fuel
exhaustion (`evalStreamH_complete`). -/
def evalStreamH {γ : Type} (impl : GetterImpl γ) :
    Nat → γ → List Item → Bool → Option (EvalOut γ)
  | 0, _, _, _ => none
  | _ + 1, env, [], closing => some (if closing then .done (.ok "") env else .hangs)
  | f + 1, env, i :: rest, closing =>
    match i with
    | .text s => withPrefixH s (evalStreamH impl f env rest closing)
    | .endBracket => withPrefixH "" (evalStreamH impl f env rest closing)
    | .unexpectedEOF c => some (.done (.error (ueMsg c)) env)
    | .readParam name => withPrefixH (impl.get env name).1 (evalStreamH impl f env rest closing)
    | .paramLen name =>
      withPrefixH (Nat.repr (impl.get env name).1.utf8ByteSize)
        (evalStreamH impl f env rest closing)
    | .paramOp name op nullIsEmpty =>
      let pVal := (impl.get env name).1
      let pSet := computeIsSet nullIsEmpty pVal (impl.get env name).2
      if op = some '+' then
        if pSet then
          match evalStreamH impl f env (bracketedStream closing rest).1
              (bracketedStream closing rest).2.1 with
          | none => none
          | some .hangs => some .hangs
          | some (.done (.error e) env1) => some (.done (.error e) env1)
          | some (.done (.ok v) env1) =>
            withPrefixH v (evalStreamH impl f env1 (bracketedStream closing rest).2.2 closing)
        else
          some (if closing then .done (.ok "") env else .hangs)
      else if pSet then
        if (bracketedStream closing rest).2.1 then
          withPrefixH pVal (evalStreamH impl f env (bracketedStream closing rest).2.2 closing)
        else
          some .hangs
      else
        match evalStreamH impl f env (bracketedStream closing rest).1
            (bracketedStream closing rest).2.1 with
        | none => none
        | some .hangs => some .hangs
        | some (.done (.error e) env1) => some (.done (.error e) env1)
        | some (.done (.ok v) env1) =>
          if op = some '-' then
            withPrefixH v (evalStreamH impl f env1 (bracketedStream closing rest).2.2 closing)
          else if op = some '=' then
            match impl.set with
            | some setf =>
              match setf env1 name v with
              | .error e => some (.done (.error e) env1)
              | .ok env2 =>
                withPrefixH v
                  (evalStreamH impl f env2 (bracketedStream closing rest).2.2 closing)
            | none =>
              some (.done
                (.error ("mapping type " ++ impl.typeName ++ " does not support assignment"))
                env1)
          else if op = some '?' then
            some (.done
              (.error (if v = "" then name ++ ": parameter null or not set" else v)) env1)
          else
            some (.done (.error ("unexpected op: " ++ opString op)) env1)

/-- Evaluate a complete token list in the faithful model (the top-level
channel is always closed by the scanner's deferred `close`). -/
def evalItemsH {γ : Type} (impl : GetterImpl γ) (env : γ) (L : List Item) : EvalOut γ :=
  (evalStreamH impl (evalMeasure L) env L true).getD .hangs

/-- `Expand` in the faithful channel model: `.done` carries the Go
return value and the final mapping state; `.hangs` means the call
deadlocks (the `lexer.Close()` after evaluation always terminates, so
the evaluation outcome is the call's outcome). -/
def ExpandH {γ : Type} (impl : GetterImpl γ) (env : γ) (s : String) : EvalOut γ :=
  evalItemsH impl env (lexItems s)

/-- The mapping of `TestExpand_simple` in the repository's test file. -/
def testMapping : List (String × String) :=
  [("set", "yes"), ("set2", "yes-two"), ("null", "")]

/-- A legal `Getter` implementation that reports `exists = false`
together with a nonempty value (nothing in the `Getter` interface
forbids this; `Get(string) (string, bool)` may pair any value with any
boolean). -/
def oddGetter : GetterImpl Unit :=
  ⟨"oddGetter", fun _ _ => ("x", false), none⟩

/-- A token list consisting of text items only. -/
def allText (L : List Item) : Prop := ∀ i ∈ L, ∃ s, i = Item.text s

/-- Concatenation of the text carried by the text items of a list. -/
def textConcat : List Item → String
  | [] => ""
  | Item.text s :: r => s ++ textConcat r
  | _ :: r => textConcat r

/-! ## Helper lemmas -/

theorem isSome_withPrefix {γ : Type} (s : String)
    (o : Option (Except String String × γ)) : (withPrefix s o).isSome = o.isSome := by
  rcases o with - | ⟨e | t, env⟩ <;> rfl

theorem subStream_spec (L : List Item) :
    (subStream L).1.length ≤ L.length + 1 ∧ (subStream L).2.length ≤ L.length ∧
      poCount (subStream L).1 ≤ poCount L ∧ poCount (subStream L).2 ≤ poCount L := by
  induction L with
  | nil => simp [subStream, poCount]
  | cons i r ih =>
    obtain ⟨h1, h2, h3, h4⟩ := ih
    cases i <;> simp [subStream, poCount] <;> omega

/-- The evaluator never runs out of fuel at the measure
`L.length + poCount L + 1`: every `Expand` call terminates. -/
theorem evalStreamF_complete {γ : Type} (impl : GetterImpl γ) :
    ∀ (f : Nat) (env : γ) (L : List Item),
      L.length + poCount L < f → (evalStreamF impl f env L).isSome := by
  intro f
  induction f with
  | zero => intro env L h; exact absurd h (by omega)
  | succ f ih =>
    intro env L h
    cases L with
    | nil => rfl
    | cons i rest =>
      obtain ⟨hs1, hs2, hs3, hs4⟩ := subStream_spec rest
      cases i with
      | text s =>
        simp only [evalStreamF, isSome_withPrefix]
        exact ih env rest (by simp [poCount] at h; omega)
      | endBracket =>
        simp only [evalStreamF, isSome_withPrefix]
        exact ih env rest (by simp [poCount] at h; omega)
      | unexpectedEOF c => rfl
      | readParam name =>
        simp only [evalStreamF, isSome_withPrefix]
        exact ih env rest (by simp [poCount] at h; omega)
      | paramLen name =>
        simp only [evalStreamF, isSome_withPrefix]
        exact ih env rest (by simp [poCount] at h; omega)
      | paramOp name op nIE =>
        simp only [List.length_cons, poCount] at h
        have hm1 : (subStream rest).1.length + poCount (subStream rest).1 < f := by omega
        have hm2 : (subStream rest).2.length + poCount (subStream rest).2 < f := by omega
        simp only [evalStreamF]
        have h1 := ih env (subStream rest).1 hm1
        obtain ⟨r1, hr1⟩ := Option.isSome_iff_exists.mp h1
        obtain ⟨ev, env1⟩ := r1
        split
        · split
          · rw [hr1]
            cases ev with
            | error e => rfl
            | ok v =>
              dsimp only
              simp only [isSome_withPrefix]
              exact ih env1 _ hm2
          · rfl
        · split
          · simp only [isSome_withPrefix]
            exact ih env _ hm2
          · rw [hr1]
            cases ev with
            | error e => rfl
            | ok v =>
              dsimp only
              split
              · simp only [isSome_withPrefix]
                exact ih env1 _ hm2
              · split
                · split
                  · split
                    · rfl
                    · simp only [isSome_withPrefix]
                      exact ih _ _ hm2
                  · rfl
                · split
                  · rfl
                  · rfl

theorem isSome_withPrefixH {γ : Type} (s : String) (o : Option (EvalOut γ)) :
    (withPrefixH s o).isSome = o.isSome := by
  match o with
  | none => rfl
  | some .hangs => rfl
  | some (.done (.error e) env) => rfl
  | some (.done (.ok t) env) => rfl

theorem bracketedStream_spec (cl : Bool) (L : List Item) :
    (bracketedStream cl L).1.length ≤ L.length + 1 ∧
      (bracketedStream cl L).2.2.length ≤ L.length ∧
      poCount (bracketedStream cl L).1 ≤ poCount L ∧
      poCount (bracketedStream cl L).2.2 ≤ poCount L := by
  induction L with
  | nil => cases cl <;> simp [bracketedStream, poCount]
  | cons i r ih =>
    obtain ⟨h1, h2, h3, h4⟩ := ih
    cases i <;> simp [bracketedStream, poCount] <;> omega

/-- The faithful evaluator never runs out of fuel at the measure
`L.length + poCount L + 1`: the `.getD .hangs` of `evalItemsH` never
fires. -/
theorem evalStreamH_complete {γ : Type} (impl : GetterImpl γ) :
    ∀ (f : Nat) (env : γ) (L : List Item) (closing : Bool),
      L.length + poCount L < f → (evalStreamH impl f env L closing).isSome := by
  intro f
  induction f with
  | zero => intro env L closing h; exact absurd h (by omega)
  | succ f ih =>
    intro env L closing h
    cases L with
    | nil => rfl
    | cons i rest =>
      obtain ⟨hs1, hs2, hs3, hs4⟩ := bracketedStream_spec closing rest
      cases i with
      | text s =>
        simp only [evalStreamH, isSome_withPrefixH]
        exact ih env rest closing (by simp [poCount] at h; omega)
      | endBracket =>
        simp only [evalStreamH, isSome_withPrefixH]
        exact ih env rest closing (by simp [poCount] at h; omega)
      | unexpectedEOF c => rfl
      | readParam name =>
        simp only [evalStreamH, isSome_withPrefixH]
        exact ih env rest closing (by simp [poCount] at h; omega)
      | paramLen name =>
        simp only [evalStreamH, isSome_withPrefixH]
        exact ih env rest closing (by simp [poCount] at h; omega)
      | paramOp name op nIE =>
        simp only [List.length_cons, poCount] at h
        have hm1 : (bracketedStream closing rest).1.length +
            poCount (bracketedStream closing rest).1 < f := by omega
        have hm2 : (bracketedStream closing rest).2.2.length +
            poCount (bracketedStream closing rest).2.2 < f := by omega
        simp only [evalStreamH]
        have h1 := ih env (bracketedStream closing rest).1
          (bracketedStream closing rest).2.1 hm1
        obtain ⟨r1, hr1⟩ := Option.isSome_iff_exists.mp h1
        split
        · split
          · rw [hr1]
            cases r1 with
            | hangs => rfl
            | done r env1 =>
              cases r with
              | error e => rfl
              | ok v =>
                dsimp only
                simp only [isSome_withPrefixH]
                exact ih env1 _ closing hm2
          · rfl
        · split
          · split
            · simp only [isSome_withPrefixH]
              exact ih env _ closing hm2
            · rfl
          · rw [hr1]
            cases r1 with
            | hangs => rfl
            | done r env1 =>
              cases r with
              | error e => rfl
              | ok v =>
                dsimp only
                split
                · simp only [isSome_withPrefixH]
                  exact ih env1 _ closing hm2
                · split
                  · split
                    · split
                      · rfl
                      · simp only [isSome_withPrefixH]
                        exact ih _ _ closing hm2
                    · rfl
                  · split
                    · rfl
                    · rfl

/-- The scanner never runs out of fuel at the measure
`4 * rest.length + stateRank st + 1`. -/
theorem lexRunF_complete :
    ∀ (f : Nat) (st : LState) (p rest : List Char) (d : Int) (q : Bool),
      4 * rest.length + stateRank st < f → (lexRunF f st p rest d q).isSome := by
  intro f
  induction f with
  | zero => intro st p rest d q h; exact absurd h (by omega)
  | succ f ih =>
    intro st p rest d q h
    cases st <;> cases rest <;>
        simp only [stateRank, List.length_cons] at h <;>
        simp only [lexRunF, Option.isSome_map'] <;>
        repeat' split
    all_goals
      first
        | rfl
        | (apply ih
           simp only [stateRank, List.length_cons] at h ⊢
           omega)
        | (simp only [Option.isSome_map']
           apply ih
           simp only [stateRank, List.length_cons] at h ⊢
           omega)

theorem mk_append (a b : List Char) :
    String.mk (a ++ b) = String.mk a ++ String.mk b := rfl

theorem textConcat_flushT (p : List Char) : textConcat (flushT p) = String.mk p := by
  by_cases hp : p = []
  · subst hp; rfl
  · simp [flushT, hp, textConcat, String.append_empty]

theorem allText_flushT (p : List Char) : allText (flushT p) := by
  intro i hi
  unfold flushT at hi
  split at hi
  · simp at hi
  · simp at hi
    exact ⟨_, hi⟩

theorem allText_append {a b : List Item} (ha : allText a) (hb : allText b) :
    allText (a ++ b) := by
  intro i hi
  rcases List.mem_append.mp hi with hm | hm
  · exact ha i hm
  · exact hb i hm

theorem textConcat_append (a b : List Item) :
    textConcat (a ++ b) = textConcat a ++ textConcat b := by
  induction a with
  | nil => simp [textConcat, String.empty_append]
  | cons i r ih => cases i <;> simp [textConcat, ih, String.append_assoc]

/-- A stream of text items evaluates to their concatenation. -/
theorem evalStreamF_textList {γ : Type} (impl : GetterImpl γ) :
    ∀ (f : Nat) (env : γ) (L : List Item), allText L → L.length < f →
      evalStreamF impl f env L = some (.ok (textConcat L), env) := by
  intro f
  induction f with
  | zero => intro env L ha h; exact absurd h (by omega)
  | succ f ih =>
    intro env L ha h
    cases L with
    | nil => rfl
    | cons i rest =>
      obtain ⟨s, rfl⟩ := ha _ (List.mem_cons_self _ _)
      have hrest : allText rest := fun j hj => ha j (List.mem_cons_of_mem _ hj)
      simp only [evalStreamF]
      rw [ih env rest hrest (by simp at h; omega)]
      simp [withPrefix, textConcat]

/-! Step equations of the scanner at bracket depth 0. -/

theorem lexText_eof (f : Nat) (p : List Char) (d : Int) (q : Bool) :
    lexRunF (f + 1) .text p [] d q = some (flushT p) := rfl

theorem lexText0_accum (f : Nat) (p r : List Char) (q : Bool) (c : Char)
    (h1 : c ≠ '$') (h2 : c ≠ '\\') :
    lexRunF (f + 1) .text p (c :: r) 0 q = lexRunF f .text (p ++ [c]) r 0 q := by
  by_cases e1 : c = '}'
  · simp [lexRunF, e1]
  · by_cases e2 : c = '\''
    · simp [lexRunF, e1, e2, h1]
    · by_cases e3 : c = '"'
      · simp [lexRunF, e1, e2, e3, h1, h2]
      · simp [lexRunF, e1, e2, e3, h1, h2]

theorem lexText0_dollar (f : Nat) (p r : List Char) (q : Bool) :
    lexRunF (f + 1) .text p ('$' :: r) 0 q =
      (lexRunF f .startExpansion [] r 0 q).map (fun out => flushT p ++ out) := by
  simp [lexRunF]

theorem lexText0_escape_eof (f : Nat) (p : List Char) (q : Bool) :
    lexRunF (f + 1) .text p ['\\'] 0 q = some (flushT p ++ [Item.text "\\"]) := by
  simp [lexRunF]

theorem lexText0_escape (f : Nat) (p r2 : List Char) (q : Bool) (c2 : Char) :
    lexRunF (f + 1) .text p ('\\' :: c2 :: r2) 0 q =
      (lexRunF f .text [c2] r2 0 q).map (fun out =>
        flushT p ++ (if c2 = '$' then [] else [Item.text "\\"]) ++ out) := by
  by_cases e : c2 = '$'
  · simp [lexRunF, e, dqEscape]
  · simp [lexRunF, e]

theorem lexStartExpansion_stop (f : Nat) (p r : List Char) (d : Int) (q : Bool) (c : Char)
    (h1 : c ≠ '{') (h2 : isAlpha c = false) :
    lexRunF (f + 1) .startExpansion p (c :: r) d q = some [] := by
  simp [lexRunF, h1, h2]

/-- Scanning plain text (no `$`) at depth 0 emits text items only, whose
concatenation is the pending text followed by the input. -/
theorem lexText_plain :
    ∀ (f : Nat) (cs p : List Char) (q : Bool),
      (∀ c ∈ cs, c ≠ '$') → 4 * cs.length < f →
      ∃ items, lexRunF f .text p cs 0 q = some items ∧ allText items ∧
        textConcat items = String.mk (p ++ cs) := by
  intro f
  induction f with
  | zero => intro cs p q hcs h; exact absurd h (by omega)
  | succ f ih =>
    intro cs p q hcs h
    cases cs with
    | nil =>
      exact ⟨flushT p, lexText_eof f p 0 q, allText_flushT p, by simp [textConcat_flushT]⟩
    | cons c r =>
      have hc : c ≠ '$' := hcs c (List.mem_cons_self _ _)
      have hr : ∀ x ∈ r, x ≠ '$' := fun x hx => hcs x (List.mem_cons_of_mem _ hx)
      by_cases hbs : c = '\\'
      · subst hbs
        cases r with
        | nil =>
          refine ⟨flushT p ++ [Item.text "\\"], lexText0_escape_eof f p q, ?_, ?_⟩
          · exact allText_append (allText_flushT p) (by intro i hi; simp at hi; exact ⟨_, hi⟩)
          · simp [textConcat_append, textConcat_flushT, textConcat, String.append_empty,
              mk_append]
        | cons c2 r2 =>
          have hc2 : c2 ≠ '$' := hr c2 (List.mem_cons_self _ _)
          have hr2 : ∀ x ∈ r2, x ≠ '$' := fun x hx => hr x (List.mem_cons_of_mem _ hx)
          obtain ⟨items, hit, ha, hconc⟩ := ih r2 [c2] q hr2 (by simp at h ⊢; omega)
          refine ⟨flushT p ++ [Item.text "\\"] ++ items, ?_, ?_, ?_⟩
          · rw [lexText0_escape f p r2 q c2, hit]
            simp [hc2]
          · exact allText_append (allText_append (allText_flushT p)
              (by intro i hi; simp at hi; exact ⟨_, hi⟩)) ha
          · simp only [textConcat_append, textConcat_flushT, hconc, textConcat,
              String.append_empty]
            show String.mk ((p ++ ['\\']) ++ ([c2] ++ r2)) = String.mk (p ++ '\\' :: c2 :: r2)
            exact congrArg String.mk (by simp)
      · obtain ⟨items, hit, ha, hconc⟩ := ih r (p ++ [c]) q hr (by simp at h ⊢; omega)
        refine ⟨items, ?_, ha, ?_⟩
        · rw [lexText0_accum f p r q c hc hbs, hit]
        · rw [hconc]
          simp

/-- Scanning plain text (no `$`, no `\`) at depth 0 up to a `$` followed
by a character that starts no expansion: the scanner emits the
accumulated text and stops. -/
theorem lexText_stop :
    ∀ (f : Nat) (pre p : List Char) (q : Bool) (c : Char) (rest : List Char),
      (∀ x ∈ pre, x ≠ '$' ∧ x ≠ '\\') → isAlpha c = false → c ≠ '{' →
      4 * pre.length + 1 < f →
      lexRunF f .text p (pre ++ '$' :: c :: rest) 0 q = some (flushT (p ++ pre)) := by
  intro f
  induction f with
  | zero => intro pre p q c rest hpre hc1 hc2 h; exact absurd h (by omega)
  | succ f ih =>
    intro pre p q c rest hpre hc1 hc2 h
    cases pre with
    | nil =>
      rw [List.nil_append, lexText0_dollar f p (c :: rest) q]
      cases f with
      | zero => exact absurd h (by omega)
      | succ f1 =>
        rw [lexStartExpansion_stop f1 [] rest 0 q c hc2 hc1]
        simp
    | cons x pre2 =>
      obtain ⟨hx1, hx2⟩ := hpre x (List.mem_cons_self _ _)
      have hpre2 : ∀ y ∈ pre2, y ≠ '$' ∧ y ≠ '\\' :=
        fun y hy => hpre y (List.mem_cons_of_mem _ hy)
      rw [List.cons_append, lexText0_accum f p (pre2 ++ '$' :: c :: rest) q x hx1 hx2,
        ih pre2 (p ++ [x]) q c rest hpre2 hc1 hc2 (by simp at h ⊢; omega)]
      simp

/-- The `lexParamLength` loop: accumulate the name, emit `ParamLen`,
and stop through the end-bracket state without emitting any further
token. -/
theorem lexParamLength_run :
    ∀ (f : Nat) (name p : List Char) (d : Int) (q : Bool),
      (∀ c ∈ name, c ≠ '}') → 4 * name.length + 3 < f →
      lexRunF f .paramLength p (name ++ ['}']) d q =
        some [Item.paramLen (String.mk (p ++ name))] := by
  intro f
  induction f with
  | zero => intro name p d q hn h; exact absurd h (by omega)
  | succ f ih =>
    intro name p d q hn h
    cases name with
    | nil =>
      cases f with
      | zero => exact absurd h (by omega)
      | succ f1 =>
        cases f1 with
        | zero => exact absurd h (by omega)
        | succ f2 =>
          simp [lexRunF, flushT]
    | cons c r =>
      have hc : c ≠ '}' := hn c (List.mem_cons_self _ _)
      have hr : ∀ x ∈ r, x ≠ '}' := fun x hx => hn x (List.mem_cons_of_mem _ hx)
      rw [List.cons_append]
      have step : lexRunF (f + 1) .paramLength p (c :: (r ++ ['}'])) d q =
          lexRunF f .paramLength (p ++ [c]) (r ++ ['}']) d q := by
        simp [lexRunF, hc]
      rw [step, ih r (p ++ [c]) d q hr (by simp at h ⊢; omega)]
      simp

theorem lexStartExpansion_brace (f : Nat) (p r : List Char) (d : Int) (q : Bool) :
    lexRunF (f + 1) .startExpansion p ('{' :: r) d q =
      lexRunF f .bracketName [] r (d + 1) q := by
  simp [lexRunF]

theorem lexBracketName_hash (f : Nat) (p r : List Char) (d : Int) (q : Bool) :
    lexRunF (f + 1) .bracketName p ('#' :: r) d q = lexRunF f .paramLength [] r d q := by
  simp [lexRunF]

theorem mk_data (s : String) : String.mk s.data = s := rfl

theorem getAssoc_setAssoc (m : List (String × String)) (k v : String) :
    getAssoc (setAssoc m k v) k = (v, true) := by
  induction m with
  | nil => simp [setAssoc, getAssoc]
  | cons kv r ih =>
    obtain ⟨k0, v0⟩ := kv
    by_cases hk : k0 = k
    · simp [setAssoc, getAssoc, hk]
    · simp [setAssoc, getAssoc, hk, ih]

theorem getAssoc_empty_of_not_exists (m : List (String × String)) (k : String)
    (h : (getAssoc m k).2 = false) : (getAssoc m k).1 = "" := by
  induction m with
  | nil => rfl
  | cons kv r ih =>
    obtain ⟨k0, v0⟩ := kv
    by_cases hk : k0 = k
    · simp [getAssoc, hk] at h
    · simp [getAssoc, hk] at h ⊢
      exact ih h

/-! ## Claims -/

/-- C1: the code violates the claimed invariant.  In the unselected
`Alternative(+)` branch, `itemParamOp.Eval` calls `skipStream(stream)`
on the raw stream instead of on `bracketedStream(stream)` (unlike the
sibling branch for the other operators), so the drain consumes every
remaining token, not only the operand up to its terminator; input text
following an unselected `${unset+w}` expansion is dropped from the
output.  The second conjunct shows the scanner did emit the trailing
text and the operand terminator: the evaluator's drain ran past it. -/
theorem C1_unselected_plus_drains_whole_stream :
    Expand MapImpl [] "x${unset+w}y" = (.ok "x", []) ∧
    lexItems "x${unset+w}y" =
      [Item.text "x", Item.paramOp "unset" (some '+') false, Item.text "w",
        Item.endBracket, Item.text "y"] :=
  ⟨rfl, rfl⟩

/-- C2 counterexample: a `Getter` that reports `exists = false` with a
nonempty value.  Under the `:`-variant the code sets
`paramSet = paramVal != ""` ignoring `exists`, so `isSet` is `true` and
`${a:-w}` returns the mapping's value `"x"` instead of the default `"w"`
that the claimed formula `exists AND (NOT nullIsEmpty OR value != "")`
would mandate. -/
theorem C2_isSet_counterexample :
    Expand oddGetter () "${a:-w}" = (.ok "x", ()) ∧
    computeIsSet true "x" false = true ∧
    specIsSet true "x" false = false :=
  ⟨rfl, rfl, rfl⟩

/-- C2 amended: the branch decision is `value != ""` when `nullIsEmpty`
and `exists` otherwise; it agrees with the specification's formula
`exists AND (NOT nullIsEmpty OR value != "")` exactly for mappings that
return an empty value whenever `exists` is false (as `Map`, `RWMap` and
the environment adapter do). -/
theorem C2_isSet_amended :
    (∀ (n : Bool) (v : String) (b : Bool),
      computeIsSet n v b = if n then v != "" else b) ∧
    (∀ (n : Bool) (v : String) (b : Bool), (b = false → v = "") →
      computeIsSet n v b = specIsSet n v b) := by
  constructor
  · intro n v b
    rfl
  · intro n v b hb
    cases b
    · have hv := hb rfl
      subst hv
      cases n <;> rfl
    · cases n <;> simp [computeIsSet, specIsSet]

/-- C2 witness for the amended claim. -/
theorem C2_isSet_amended_witness :
    computeIsSet true "" false = specIsSet true "" false :=
  C2_isSet_amended.2 true "" false (fun _ => rfl)

/-- C3: the `Default(-)` operator follows the null-vs-unset rule on the
test mapping `set="yes"`, `null=""`, other keys absent. -/
theorem C3_default_operator :
    Expand MapImpl testMapping "${unset:-word}" = (.ok "word", testMapping) ∧
    Expand MapImpl testMapping "${null:-word}" = (.ok "word", testMapping) ∧
    Expand MapImpl testMapping "${set:-word}" = (.ok "yes", testMapping) ∧
    Expand MapImpl testMapping "${null-word}" = (.ok "", testMapping) ∧
    Expand MapImpl testMapping "${unset-word}" = (.ok "word", testMapping) :=
  ⟨rfl, rfl, rfl, rfl, rfl⟩

/-- C4: the code CAN hang, so the claim's universal termination fails.
On `${set-` with `set` bound, the parameter is set, so
`itemParamOp.Eval` drains the operand with
`skipStream(bracketedStream(stream))`; the scanner closes the stream
without an `itemEndBracket`, so the `bracketedStream` goroutine sends
the fallback `itemUnexpectedEOF('}')` and returns WITHOUT closing its
channel, and the range in `skipStream` blocks forever: in the faithful
channel model the call hangs.  The claim's three malformed-input
examples are themselves right: they terminate with the
unterminated-expansion errors naming the missing delimiter, because
their unexpected-EOF tokens are evaluated (aborting with an error)
rather than drained. -/
theorem C4_expand_can_hang :
    ExpandH MapImpl [("set", "yes")] (String.mk ['$', '{', 's', 'e', 't', '-']) =
      EvalOut.hangs ∧
    ExpandH MapImpl [] (String.mk ['$', '{']) = .done (.error (ueMsg '}')) [] ∧
    ExpandH MapImpl [] (String.mk ['$', '{', 'f', 'o', 'o']) =
      .done (.error (ueMsg '}')) [] ∧
    ExpandH MapImpl []
        (String.mk ['$', '{', 'u', 'n', 's', 'e', 't', '-', '\'', 'f', 'o', 'o']) =
      .done (.error (ueMsg '\'')) [] :=
  ⟨rfl, rfl, rfl, rfl⟩

/-- C5: the `ErrorIfUnset(?)` operator.  If `isSet`, the operand is
drained and the existing value returned without error; otherwise the
operand is evaluated as the message, an empty message is replaced by
`"<name>: parameter null or not set"`, and evaluation fails with exactly
that message.  Without `:` an empty-but-present value counts as set. -/
theorem C5_error_if_unset :
    (∀ (γ : Type) (impl : GetterImpl γ) (env : γ) (name w : String) (n : Bool),
      computeIsSet n (impl.get env name).1 (impl.get env name).2 = false →
      evalItems impl env [Item.paramOp name (some '?') n, Item.text w, Item.endBracket] =
        (.error (if w = "" then name ++ ": parameter null or not set" else w), env)) ∧
    (∀ (γ : Type) (impl : GetterImpl γ) (env : γ) (name w : String) (n : Bool),
      computeIsSet n (impl.get env name).1 (impl.get env name).2 = true →
      evalItems impl env [Item.paramOp name (some '?') n, Item.text w, Item.endBracket] =
        (.ok (impl.get env name).1, env)) ∧
    Expand MapImpl testMapping "${null?word}" = (.ok "", testMapping) ∧
    Expand MapImpl testMapping "${null:?}" =
      (.error "null: parameter null or not set", testMapping) ∧
    Expand MapImpl testMapping "${unset:?word}" = (.error "word", testMapping) ∧
    Expand MapImpl testMapping "${set?word}" = (.ok "yes", testMapping) := by
  have hm : evalMeasure [Item.paramOp "x" (some '?') true, Item.text "y", Item.endBracket] =
      2 + 1 + 1 + 1 := rfl
  refine ⟨?_, ?_, rfl, rfl, rfl, rfl⟩
  · intro γ impl env name w n hset
    have hm2 : evalMeasure [Item.paramOp name (some '?') n, Item.text w, Item.endBracket] =
        2 + 1 + 1 + 1 := rfl
    simp only [evalItems, hm2, evalStreamF, hset, subStream, withPrefix,
      String.append_empty]
    simp
  · intro γ impl env name w n hset
    have hm2 : evalMeasure [Item.paramOp name (some '?') n, Item.text w, Item.endBracket] =
        2 + 1 + 1 + 1 := rfl
    simp only [evalItems, hm2, evalStreamF, hset, subStream, withPrefix,
      String.append_empty]
    simp

/-- C5 witness: both general conjuncts instantiated on the test
mapping (`null` is present but empty: set for `?`, unset for `:?`). -/
theorem C5_error_if_unset_witness :
    evalItems MapImpl testMapping
        [Item.paramOp "null" (some '?') true, Item.text "", Item.endBracket] =
      (.error "null: parameter null or not set", testMapping) ∧
    evalItems MapImpl testMapping
        [Item.paramOp "null" (some '?') false, Item.text "w", Item.endBracket] =
      (.ok "", testMapping) := by
  constructor
  · have h := C5_error_if_unset.1 (List (String × String)) MapImpl testMapping "null" "" true
      (by rfl)
    simpa using h
  · have h := C5_error_if_unset.2.1 (List (String × String)) MapImpl testMapping "null" "w"
      false (by rfl)
    simpa using h

/-- C6: `AssignDefault(=)`: when the parameter is not set, the operand's
value is assigned through the `Setter` capability, so a subsequent `Get`
on the updated mapping returns it with `exists = true`; a mapping
without the capability makes `Expand` fail with the
assignment-unsupported error instead of returning a value. -/
theorem C6_assign_default :
    (∀ (env : List (String × String)) (name w : String),
      computeIsSet true (getAssoc env name).1 (getAssoc env name).2 = false →
      evalItems RWMapImpl env [Item.paramOp name (some '=') true, Item.text w,
          Item.endBracket] =
        (.ok w, setAssoc env name w)) ∧
    (∀ (m : List (String × String)) (k v : String),
      getAssoc (setAssoc m k v) k = (v, true)) ∧
    (∀ (γ : Type) (impl : GetterImpl γ) (env : γ) (name w : String) (n : Bool),
      impl.set = none →
      computeIsSet n (impl.get env name).1 (impl.get env name).2 = false →
      evalItems impl env [Item.paramOp name (some '=') n, Item.text w, Item.endBracket] =
        (.error ("mapping type " ++ impl.typeName ++ " does not support assignment"), env)) ∧
    Expand RWMapImpl [] "${unset:=word}" = (.ok "word", [("unset", "word")]) ∧
    Expand MapImpl [] "${unset:=word}" =
      (.error "mapping type posix.Map does not support assignment", []) ∧
    Expand (FuncImpl (fun _ => "")) () "${unset:=word}" =
      (.error "mapping type posix.Func does not support assignment", ()) := by
  refine ⟨?_, getAssoc_setAssoc, ?_, rfl, rfl, rfl⟩
  · intro env name w hset
    have hm2 : evalMeasure [Item.paramOp name (some '=') true, Item.text w,
        Item.endBracket] = 2 + 1 + 1 + 1 := rfl
    simp only [evalItems, hm2, evalStreamF, RWMapImpl, hset, subStream, withPrefix,
      String.append_empty]
    simp [RWMapImpl, withPrefix, String.append_empty]
  · intro γ impl env name w n hnone hset
    have hm2 : evalMeasure [Item.paramOp name (some '=') n, Item.text w,
        Item.endBracket] = 2 + 1 + 1 + 1 := rfl
    simp only [evalItems, hm2, evalStreamF, hset, hnone, subStream, withPrefix,
      String.append_empty]
    simp

/-- C6 witness: the assignment conjuncts instantiated at concrete
mappings. -/
theorem C6_assign_default_witness :
    evalItems RWMapImpl [] [Item.paramOp "unset" (some '=') true, Item.text "word",
        Item.endBracket] =
      (.ok "word", [("unset", "word")]) ∧
    evalItems MapImpl [] [Item.paramOp "unset" (some '=') true, Item.text "word",
        Item.endBracket] =
      (.error "mapping type posix.Map does not support assignment", []) := by
  constructor
  · have h := C6_assign_default.1 [] "unset" "word" (by rfl)
    simpa using h
  · have h := C6_assign_default.2.2.1 (List (String × String)) MapImpl [] "unset" "word" true
      (by rfl) (by rfl)
    simpa using h

/-- C7: quoting is recognized only at bracket depth > 0.  Inside a
bracket `'...'` is a literal region; at depth 0 an escaped character
other than `$` keeps its backslash (and quotes are plain text); at
depth > 0 in double-quote mode only the characters of `dqEscape`
(`$`, backtick, `"`, `\`) drop the backslash. -/
theorem C7_quoting_and_escapes :
    Expand MapImpl []
        (String.mk ['$', '{', 'u', 'n', 's', 'e', 't', '-', '\'', '$', '{', 'f', 'o', 'o',
          '}', '\'', '}']) =
      (.ok "${foo}", []) ∧
    (∀ (f : Nat) (p r2 : List Char) (q : Bool) (c2 : Char),
      lexRunF (f + 1) .text p ('\\' :: c2 :: r2) 0 q =
        (lexRunF f .text [c2] r2 0 q).map (fun out =>
          flushT p ++ (if c2 = '$' then [] else [Item.text "\\"]) ++ out)) ∧
    (∀ (f : Nat) (p r2 : List Char) (d : Int) (c2 : Char), d ≠ 0 →
      lexRunF (f + 1) .text p ('\\' :: c2 :: r2) d true =
        (lexRunF f .text [c2] r2 d true).map (fun out =>
          flushT p ++ (if dqEscape c2 then [] else [Item.text "\\"]) ++ out)) ∧
    Expand MapImpl [] "\\\"" = (.ok "\\\"", []) ∧
    Expand MapImpl [] "'foo'" = (.ok "'foo'", []) ∧
    Expand MapImpl []
        (String.mk ['$', '{', 'u', 'n', 's', 'e', 't', '-', '"', '\\', '$', '"', '}']) =
      (.ok "$", []) ∧
    Expand MapImpl []
        (String.mk ['$', '{', 'u', 'n', 's', 'e', 't', '-', '"', '\\', 'a', '"', '}']) =
      (.ok "\\a", []) := by
  refine ⟨rfl, ?_, ?_, rfl, rfl, rfl, rfl⟩
  · intro f p r2 q c2
    exact lexText0_escape f p r2 q c2
  · intro f p r2 d c2 hd
    by_cases he : dqEscape c2 = true
    · simp [lexRunF, he, hd]
    · rw [Bool.not_eq_true] at he
      simp [lexRunF, he, hd]

/-- C7 witness: the double-quote escape conjunct at depth 1 on a
non-escape character. -/
theorem C7_quoting_and_escapes_witness :
    lexRunF (2 + 1) .text [] ('\\' :: 'a' :: []) 1 true =
      (lexRunF 2 .text ['a'] [] 1 true).map (fun out =>
        flushT [] ++ (if dqEscape 'a' then [] else [Item.text "\\"]) ++ out) :=
  C7_quoting_and_escapes.2.2.1 2 [] [] 1 'a' (by decide)

/-- C8: a template containing no `$` expands to itself under every
mapping, with no error; such strings are therefore fixed points of
`Expand`. -/
theorem C8_no_dollar_identity :
    ∀ (γ : Type) (impl : GetterImpl γ) (env : γ) (s : String),
      (∀ c ∈ s.data, c ≠ '$') → Expand impl env s = (.ok s, env) := by
  intro γ impl env s hs
  obtain ⟨items, hit, ha, hconc⟩ :=
    lexText_plain (lexFuel s) s.data [] false hs (by simp [lexFuel])
  have hlex : lexItems s = items := by
    simp [lexItems, hit]
  have heval := evalStreamF_textList impl (evalMeasure items) env items ha
    (by simp [evalMeasure]; omega)
  unfold Expand evalItems
  rw [hlex, heval]
  simp only [Option.getD_some]
  rw [hconc]
  simp [mk_data]

/-- C8 witness: a concrete `$`-free template (containing braces, quotes
and a backslash) expanding to itself. -/
theorem C8_no_dollar_identity_witness :
    Expand MapImpl [] (String.mk ['a', '}', 'b', ' ', '\\', 'c', '\'', 'd', '"', 'e']) =
      (.ok (String.mk ['a', '}', 'b', ' ', '\\', 'c', '\'', 'd', '"', 'e']), []) :=
  C8_no_dollar_identity _ MapImpl [] _ (by decide)

/-- C9 counterexample: the scanner emits `ParamLen("set")` for
`${#set}` but no `EndBracket` token: the token list is complete and
contains none.  (`lexParamLength` transitions to the `lexEndBracket`
state, which only decrements the depth; the `itemEndBracket` token is
emitted only by `lexText` for `}` at depth > 0.) -/
theorem C9_param_length_counterexample :
    lexItems (String.mk ['$', '{', '#', 's', 'e', 't', '}']) = [Item.paramLen "set"] ∧
    Item.endBracket ∉ lexItems (String.mk ['$', '{', '#', 's', 'e', 't', '}']) := by
  refine ⟨rfl, ?_⟩
  show Item.endBracket ∉ [Item.paramLen "set"]
  simp

/-- C9 amended: scanning `${#name}` accumulates the name until `}` and
emits exactly `ParamLen(name)`, transitioning through the end-bracket
state (which decrements the depth) without emitting an `EndBracket`
token. -/
theorem C9_param_length_amended :
    ∀ (name : List Char), (∀ c ∈ name, c ≠ '}') →
      lexItems (String.mk ('$' :: '{' :: '#' :: (name ++ ['}']))) =
        [Item.paramLen (String.mk name)] := by
  intro name hn
  have hlen : ('$' :: '{' :: '#' :: (name ++ ['}'])).length = name.length + 4 := by
    simp
  show (lexRunF (4 * ('$' :: '{' :: '#' :: (name ++ ['}'])).length + 1) .text []
      ('$' :: '{' :: '#' :: (name ++ ['}'])) 0 false).getD [] =
    [Item.paramLen (String.mk name)]
  rw [hlen]
  have e1 : 4 * (name.length + 4) + 1 = (4 * name.length + 16) + 1 := by omega
  rw [e1, lexText0_dollar]
  have e2 : 4 * name.length + 16 = (4 * name.length + 15) + 1 := by omega
  rw [e2, lexStartExpansion_brace]
  have e3 : 4 * name.length + 15 = (4 * name.length + 14) + 1 := by omega
  rw [e3, lexBracketName_hash]
  rw [lexParamLength_run (4 * name.length + 14) name [] (0 + 1) false hn (by omega)]
  simp [flushT]

/-- C9 witness for the amended claim. -/
theorem C9_param_length_amended_witness :
    lexItems (String.mk ['$', '{', '#', 's', 'e', 't', '}']) = [Item.paramLen "set"] :=
  C9_param_length_amended ['s', 'e', 't'] (by decide)

/-- C10: when `$` is followed by a character that is neither `{` nor an
identifier-start character, `lexStartExpansion` returns the nil state:
scanning stops, the `$`, that character and all remaining input are
dropped, and `Expand` returns the text accumulated so far with no
error. -/
theorem C10_invalid_expansion_start :
    (∀ (γ : Type) (impl : GetterImpl γ) (env : γ) (pre : List Char) (c : Char)
        (rest : List Char),
      (∀ x ∈ pre, x ≠ '$' ∧ x ≠ '\\') → isAlpha c = false → c ≠ '{' →
      Expand impl env (String.mk (pre ++ '$' :: c :: rest)) = (.ok (String.mk pre), env)) ∧
    Expand MapImpl [] "$1abc" = (.ok "", []) ∧
    Expand MapImpl [] "a$%b" = (.ok "a", []) := by
  refine ⟨?_, rfl, rfl⟩
  intro γ impl env pre c rest hpre hc1 hc2
  have hstop := lexText_stop (lexFuel (String.mk (pre ++ '$' :: c :: rest)))
    pre [] false c rest hpre hc1 hc2 (by simp [lexFuel]; try omega)
  have hlex : lexItems (String.mk (pre ++ '$' :: c :: rest)) = flushT ([] ++ pre) := by
    simp [lexItems, hstop]
  have heval := evalStreamF_textList impl (evalMeasure (flushT ([] ++ pre))) env
    (flushT ([] ++ pre)) (allText_flushT _) (by simp [evalMeasure]; omega)
  unfold Expand evalItems
  rw [hlex, heval]
  simp [textConcat_flushT]

/-- C10 witness: the general conjunct at the concrete input `a$%b`. -/
theorem C10_invalid_expansion_start_witness :
    Expand MapImpl [] (String.mk (['a'] ++ '$' :: '%' :: ['b'])) =
      (.ok (String.mk ['a']), []) :=
  C10_invalid_expansion_start.1 _ MapImpl [] ['a'] '%' ['b'] (by decide) (by decide)
    (by decide)

end GoPosix
